import Mathlib

/-!
Verification of the BgRemover Streamlit application (src/app.py).

The application is a single-file pipeline: validate upload size, decode the
bytes to an RGBA raster, resize oversized rasters to a bounding dimension,
run the external background-removal model, and display/download the result.

Shallow embedding notes:
* A raster is its width, height and an abstract pixel payload (`List Nat`).
* `int(height * (max_size / width))` in Python is IEEE-754 binary64
  arithmetic: CPython's int/int true division returns the correctly
  rounded (round-to-nearest, ties-to-even, 53-bit) double of the exact
  quotient, the int operand of `*` is converted to double the same way,
  the product is rounded again, and `int()` truncates toward zero.  We
  model this bit-exactly: `flPair a b` is the mantissa/exponent pair of
  the binary64 rounding of a/b, `mulFl` multiplies two such floats with
  correct rounding, and `truncFloat` truncates; all computations run on
  `Nat`/`Int` so they evaluate inside the kernel.  The model uses an
  unbounded exponent: it agrees with binary64 whenever no intermediate
  is subnormal or infinite, which for `M = 2000` holds for every raster
  with sides below 2^970 — far beyond any decodable image.
* The external collaborators (PIL's Lanczos resampler, the rembg model,
  the codec) are parameters of the model (`Env`): PIL's `resize` returns
  an image of exactly the requested dimensions, so only its pixel payload
  is abstract.
* Streamlit calls (`st.error`, `st.progress`, `st.image`, ...) are modelled
  as an event trace; `print` to the server console is a `consoleLog` event.
  Entry into the decode / resize / remove stages is recorded with
  `stageDecode` / `stageResize` / `stageRemove` marker events so that
  "the stage is never invoked" is expressible as trace membership.
-/

namespace BgRemover

/-- `MAX_FILE_SIZE = 10 * 1024 * 1024` from src/app.py line 20. -/
def MAX_FILE_SIZE : Nat := 10 * 1024 * 1024

/-- `MAX_IMAGE_SIZE = 2000` from src/app.py line 21. -/
def MAX_IMAGE_SIZE : Nat := 2000

/-- An in-memory raster: dimensions plus an abstract pixel payload. -/
structure Raster where
  width : Nat
  height : Nat
  data : List Nat
  deriving DecidableEq, Repr

/-! ### Exact binary64 arithmetic

The helpers below compute, over `Nat`/`Int` only, the IEEE-754 binary64
(double precision, round-to-nearest-even) operations that CPython performs
in `int(height * (max_size / width))`.  A float is represented by a
mantissa/exponent pair `(n, e)` standing for the real value `n * 2 ^ e`.
-/

/-- Fuel-driven floor of log₂ (structural recursion so the kernel can
evaluate it); `nlog2F fuel n` is `⌊log₂ n⌋` whenever `1 ≤ n ≤ fuel`. -/
def nlog2F : Nat → Nat → Nat
  | 0, _ => 0
  | fuel + 1, n => if n ≤ 1 then 0 else nlog2F fuel (n / 2) + 1

/-- `⌊log₂ n⌋` for `n ≥ 1`. -/
def nlog2 (n : Nat) : Nat := nlog2F n n

/-- `⌊log₂ (a / b)⌋` for positive naturals `a`, `b`. -/
def ratLog2 (a b : Nat) : ℤ :=
  let k : ℤ := (nlog2 a : ℤ) - (nlog2 b : ℤ)
  if 0 ≤ k then (if b * 2 ^ k.toNat ≤ a then k else k - 1)
  else (if b ≤ a * 2 ^ (-k).toNat then k else k - 1)

/-- Round the fraction `a / b` to the nearest natural, ties to even —
the rounding IEEE-754 applies to the scaled mantissa. -/
def rheNat (a b : Nat) : Nat :=
  let q := a / b
  let r := a % b
  if 2 * r < b then q
  else if b < 2 * r then q + 1
  else if q % 2 = 0 then q else q + 1

/-- The binary64 rounding of `a / b` (`a, b ≥ 1`) as a mantissa/exponent
pair: the mantissa is the 53-bit rounding of `a / b` scaled into
`[2^52, 2^53]`.  This is the value CPython's int/int true division and
int→float conversion produce. -/
def flPair (a b : Nat) : Nat × ℤ :=
  let e : ℤ := ratLog2 a b - 52
  if 0 ≤ e then (rheNat a (b * 2 ^ e.toNat), e)
  else (rheNat (a * 2 ^ (-e).toNat) b, e)

/-- The rational value of a mantissa/exponent pair. -/
def flVal (p : Nat × ℤ) : ℚ := (p.1 : ℚ) * (2:ℚ) ^ p.2

/-- Correctly rounded binary64 product of two floats — the IEEE-754
multiplication CPython performs in `height * (max_size / width)`. -/
def mulFl (p q : Nat × ℤ) : Nat × ℤ :=
  let e : ℤ := p.2 + q.2
  if 0 ≤ e then flPair (p.1 * q.1 * 2 ^ e.toNat) 1
  else flPair (p.1 * q.1) (2 ^ (-e).toNat)

/-- Python `int()` on a nonnegative float: truncation toward zero. -/
def truncFloat (p : Nat × ℤ) : Nat :=
  if 0 ≤ p.2 then p.1 * 2 ^ p.2.toNat else p.1 / 2 ^ (-p.2).toNat

/-- `int(S * (M / L))` exactly as CPython computes it: correctly rounded
division `M / L`, int→float conversion of `S`, correctly rounded product,
truncation. -/
def scaled_side (S L M : Nat) : Nat :=
  truncFloat (mulFl (flPair S 1) (flPair M L))

/-- `resize_image` from src/app.py lines 30-41, parametrised by the external
Lanczos resampler (only the pixel payload of the resized image depends on it;
PIL guarantees the requested dimensions).

Python source:
```
width, height = image.size
if width <= max_size and height <= max_size:
    return image
if width > height:
    new_width = max_size
    new_height = int(height * (max_size / width))
else:
    new_height = max_size
    new_width = int(width * (max_size / height))
return image.resize((new_width, new_height), Image.LANCZOS)
```
`int(shorter * (max_size / longer))` is `scaled_side shorter longer
max_size`, the bit-exact binary64 computation. -/
def resize_image (lanczos : Raster → Nat → Nat → List Nat)
    (image : Raster) (max_size : Nat) : Raster :=
  if image.width ≤ max_size ∧ image.height ≤ max_size then
    image
  else if image.width > image.height then
    let new_width := max_size
    let new_height := scaled_side image.height image.width max_size
    ⟨new_width, new_height, lanczos image new_width new_height⟩
  else
    let new_height := max_size
    let new_width := scaled_side image.width image.height max_size
    ⟨new_width, new_height, lanczos image new_width new_height⟩

/-- Round `num / den` to the nearest integer (ties up): `⌊num/den + 1/2⌋`.
Used only to state what "rounded to the nearest integer" would compute,
for comparison with the code's truncation. -/
def roundNearest (num den : Nat) : Nat :=
  (2 * num + den) / (2 * den)

/-- Result of a Python call that may raise: either a value or an exception
carrying its `str(e)` text. -/
inductive Outcome (α : Type) where
  | ok (a : α)
  | raise (e : String)
  deriving DecidableEq, Repr

/-- The external collaborators of the pipeline: PIL's Lanczos resampler
(pixel payload only), `Image.open(...).convert("RGBA")` on the uploaded
bytes, and rembg's `remove` on a raster.  Each may raise. -/
structure Env where
  lanczos : Raster → Nat → Nat → List Nat
  decodeFn : List Nat → Outcome Raster
  removeFn : Raster → Outcome Raster

/-- Observable events of one request: Streamlit UI calls, console output,
plus markers recording entry into each pipeline stage. -/
inductive Event where
  | errorMsg (msg : String)
  | sidebarErrorMsg (msg : String)
  | infoMsg (msg : String)
  | statusText (msg : String)
  | progressBar (pct : Nat)
  | showImage (caption : String) (w h : Nat)
  | downloadButton (fileName mime : String)
  | consoleLog (msg : String)
  | stageDecode
  | stageResize
  | stageRemove
  deriving DecidableEq, Repr

/-- `process_image` from src/app.py lines 43-52: decode, resize, remove;
on any exception show `st.error(f"Image processing error: {str(e)}")` and
return `(None, None)`.  Returns the result of the `try` body together with
the events it emitted. -/
def process_image (env : Env) (image_bytes : List Nat) :
    Option (Raster × Raster) × List Event :=
  match env.decodeFn image_bytes with
  | .raise e =>
      (none, [.stageDecode, .errorMsg ("Image processing error: " ++ e)])
  | .ok image =>
      let resized := resize_image env.lanczos image MAX_IMAGE_SIZE
      match env.removeFn resized with
      | .raise e =>
          (none, [.stageDecode, .stageResize, .stageRemove,
                  .errorMsg ("Image processing error: " ++ e)])
      | .ok result =>
          (some (image, result), [.stageDecode, .stageResize, .stageRemove])

/-- `fix_image` from src/app.py lines 54-91, success and
`process_image`-failure paths (the outer `except` is `fix_image_handler`
below).  `elapsed` stands for the formatted wall-clock measurement
`f"{time.time() - start:.2f}"`. -/
def fix_image (env : Env) (image_bytes : List Nat) (elapsed : String) :
    List Event :=
  let pre : List Event :=
    [.progressBar 0,
     .statusText "🔄 Reading image...",
     .progressBar 10,
     .statusText "⚙️ Processing image...",
     .progressBar 30]
  match process_image env image_bytes with
  | (none, evs) => pre ++ evs
  | (some (original, removed), evs) =>
      pre ++ evs ++
      [.progressBar 90,
       .statusText "📸 Displaying result...",
       .showImage "Original Image" original.width original.height,
       .showImage "Background Removed" removed.width removed.height,
       .downloadButton "removed_background.png" "image/png",
       .progressBar 100,
       .statusText ("✅ Completed in " ++ elapsed ++ " seconds")]

/-- The outer `except` of `fix_image`, src/app.py lines 88-91: generic
user-facing messages plus `print(traceback.format_exc())` to the server
console.  `tb` is the traceback text. -/
def fix_image_handler (tb : String) : List Event :=
  [.errorMsg "An unexpected error occurred.",
   .sidebarErrorMsg "⚠️ Processing failed.",
   .consoleLog tb]

/-- The top-level dispatch, src/app.py lines 105-109: reject oversized
uploads before `fix_image` is ever called.  `uploaded.size` is the byte
length of the uploaded buffer. -/
def main_dispatch (env : Env) (image_bytes : List Nat) (elapsed : String) :
    List Event :=
  if image_bytes.length > MAX_FILE_SIZE then
    [.errorMsg "File too large. Please upload an image smaller than 10MB."]
  else
    fix_image env image_bytes elapsed

/-- The successive values shown on the progress bar. -/
def progressValues (t : List Event) : List Nat :=
  t.filterMap fun e =>
    match e with
    | .progressBar n => some n
    | _ => none

/-- All user-visible error messages (`st.error` and `st.sidebar.error`). -/
def userErrors (t : List Event) : List String :=
  t.filterMap fun e =>
    match e with
    | .errorMsg m => some m
    | .sidebarErrorMsg m => some m
    | _ => none

/-- All operator-console output (`print`). -/
def consoleLogs (t : List Event) : List String :=
  t.filterMap fun e =>
    match e with
    | .consoleLog m => some m
    | _ => none

/-- All images displayed to the user, as (caption, width, height). -/
def shownImages (t : List Event) : List (String × Nat × Nat) :=
  t.filterMap fun e =>
    match e with
    | .showImage c w h => some (c, w, h)
    | _ => none

/-- All download buttons offered, as (file name, MIME type). -/
def downloadButtons (t : List Event) : List (String × String) :=
  t.filterMap fun e =>
    match e with
    | .downloadButton n m => some (n, m)
    | _ => none

/-- Whether an event marks entry into a pipeline stage. -/
def isStageEvent (e : Event) : Bool :=
  match e with
  | .stageDecode => true
  | .stageResize => true
  | .stageRemove => true
  | _ => false

/-- The pipeline-stage markers occurring in a trace. -/
def stageEvents (t : List Event) : List Event :=
  t.filter isStageEvent

/-- What `process_image` returns for one input: the value of the memoized
call together with the events it emits. -/
abbrev ProcResult : Type := Option (Raster × Raster) × List Event

/-- The `@st.cache_data` memoization table: input bytes to memoized result,
read/insert-only, no eviction. -/
abbrev Cache : Type := List (List Nat × ProcResult)

/-- Look up previously memoized bytes in the cache. -/
def cacheLookup (k : List Nat) : Cache → Option ProcResult
  | [] => none
  | kv :: rest => if kv.1 = k then some kv.2 else cacheLookup k rest

/-- A call to the `@st.cache_data`-decorated `process_image`: return the
memoized result when the same bytes were seen before, otherwise run
`process_image` and insert the result. -/
def cached_process_image (env : Env) (c : Cache) (k : List Nat) :
    ProcResult × Cache :=
  match cacheLookup k c with
  | some v => (v, c)
  | none => (process_image env k, (k, process_image env k) :: c)

/-- The cache invariant: every memoized entry is what `process_image`
computes on its key. -/
def CacheWF (env : Env) (c : Cache) : Prop :=
  ∀ p ∈ c, p.2 = process_image env p.1

/-- A well-formed cache only answers with the recomputed value. -/
lemma cacheLookup_wf {env : Env} {c : Cache} {k : List Nat} {v : ProcResult}
    (hwf : CacheWF env c) (hl : cacheLookup k c = some v) :
    v = process_image env k := by
  induction c with
  | nil => simp [cacheLookup] at hl
  | cons kv rest ih =>
      rw [cacheLookup] at hl
      by_cases hk : kv.1 = k
      · rw [if_pos hk] at hl
        have := hwf kv (List.mem_cons_self kv rest)
        rw [← hk]
        cases hl
        exact this
      · rw [if_neg hk] at hl
        exact ih (fun p hp => hwf p (List.mem_cons_of_mem kv hp)) hl

lemma nlog2F_correct (fuel : Nat) : ∀ n, 1 ≤ n → n ≤ fuel →
    2 ^ nlog2F fuel n ≤ n ∧ n < 2 ^ (nlog2F fuel n + 1) := by
  induction fuel with
  | zero => intro n h1 h2; omega
  | succ f ih =>
      intro n h1 h2
      rw [nlog2F]
      by_cases hn : n ≤ 1
      · rw [if_pos hn]
        constructor
        · simpa using h1
        · have : n = 1 := by omega
          simp [this]
      · rw [if_neg hn]
        have h3 : 1 ≤ n / 2 := by omega
        have h4 : n / 2 ≤ f := by omega
        obtain ⟨ha, hb⟩ := ih (n / 2) h3 h4
        rw [pow_succ, pow_succ]
        constructor
        · omega
        · omega

lemma nlog2_correct (n : Nat) (h : 1 ≤ n) :
    2 ^ nlog2 n ≤ n ∧ n < 2 ^ (nlog2 n + 1) :=
  nlog2F_correct n n h le_rfl

lemma cast_two_pow (n : ℕ) : ((2 ^ n : ℕ) : ℚ) = (2:ℚ) ^ (n : ℤ) := by
  push_cast
  rw [zpow_natCast]

lemma q_pow_div (m n : ℕ) :
    ((2 ^ m : ℕ) : ℚ) / ((2 ^ n : ℕ) : ℚ) = (2:ℚ) ^ ((m:ℤ) - (n:ℤ)) := by
  rw [cast_two_pow, cast_two_pow, ← zpow_sub₀ (by norm_num : (2:ℚ) ≠ 0)]

lemma zpow_le_div_iff_of_nonneg (a b : Nat) (j : ℤ) (hb : 1 ≤ b)
    (hj : 0 ≤ j) :
    ((2:ℚ) ^ j ≤ (a:ℚ) / (b:ℚ)) ↔ b * 2 ^ j.toNat ≤ a := by
  have hbq : (0:ℚ) < (b:ℚ) := by exact_mod_cast hb
  have h2j : (2:ℚ) ^ j = ((2 ^ j.toNat : ℕ) : ℚ) := by
    rw [cast_two_pow, Int.toNat_of_nonneg hj]
  rw [le_div_iff₀ hbq, h2j]
  have hcast : ((2 ^ j.toNat : ℕ) : ℚ) * (b : ℚ) = ((b * 2 ^ j.toNat : ℕ) : ℚ) := by
    push_cast
    ring
  rw [hcast]
  exact_mod_cast Iff.rfl

lemma zpow_le_div_iff_of_neg (a b : Nat) (j : ℤ) (hb : 1 ≤ b)
    (hj : j < 0) :
    ((2:ℚ) ^ j ≤ (a:ℚ) / (b:ℚ)) ↔ b ≤ a * 2 ^ (-j).toNat := by
  have hbq : (0:ℚ) < (b:ℚ) := by exact_mod_cast hb
  have h2m : (0:ℚ) < ((2 ^ (-j).toNat : ℕ) : ℚ) := by positivity
  have h2j : (2:ℚ) ^ j = 1 / ((2 ^ (-j).toNat : ℕ) : ℚ) := by
    rw [cast_two_pow, Int.toNat_of_nonneg (by omega : (0:ℤ) ≤ -j), one_div,
      ← zpow_neg]
    congr 1
    omega
  rw [h2j, div_le_div_iff₀ h2m hbq, one_mul]
  have hcast : (a:ℚ) * ((2 ^ (-j).toNat : ℕ) : ℚ) = ((a * 2 ^ (-j).toNat : ℕ) : ℚ) := by
    push_cast
    ring
  rw [hcast]
  exact_mod_cast Iff.rfl

lemma ratLog2_correct (a b : Nat) (ha : 1 ≤ a) (hb : 1 ≤ b) :
    (2:ℚ) ^ ratLog2 a b ≤ (a:ℚ) / (b:ℚ) ∧
    (a:ℚ) / (b:ℚ) < (2:ℚ) ^ (ratLog2 a b + 1) := by
  obtain ⟨ha1, ha2⟩ := nlog2_correct a ha
  obtain ⟨hb1, hb2⟩ := nlog2_correct b hb
  have hbq : (0:ℚ) < (b:ℚ) := by exact_mod_cast hb
  set α := nlog2 a with hα
  set β := nlog2 b with hβ
  set k : ℤ := (α : ℤ) - (β : ℤ) with hk
  have hp2 : (0:ℕ) < 2 ^ β := Nat.pos_pow_of_pos β (by norm_num)
  have hupper : (a:ℚ) / (b:ℚ) < (2:ℚ) ^ (k + 1) := by
    have hnat : a * 2 ^ β < 2 ^ (α + 1) * b := by
      calc a * 2 ^ β < 2 ^ (α + 1) * 2 ^ β := mul_lt_mul_of_pos_right ha2 hp2
        _ ≤ 2 ^ (α + 1) * b := mul_le_mul_left' hb1 _
    have hq : (a:ℚ) / (b:ℚ) < ((2 ^ (α + 1) : ℕ) : ℚ) / ((2 ^ β : ℕ) : ℚ) := by
      rw [div_lt_div_iff₀ hbq (by positivity)]
      calc (a:ℚ) * ((2 ^ β : ℕ) : ℚ) = ((a * 2 ^ β : ℕ) : ℚ) := by push_cast; ring
        _ < ((2 ^ (α + 1) * b : ℕ) : ℚ) := by exact_mod_cast hnat
        _ = ((2 ^ (α + 1) : ℕ) : ℚ) * (b:ℚ) := by push_cast; ring
    calc (a:ℚ) / (b:ℚ) < ((2 ^ (α + 1) : ℕ) : ℚ) / ((2 ^ β : ℕ) : ℚ) := hq
      _ = (2:ℚ) ^ (((α + 1 : ℕ) : ℤ) - (β : ℤ)) := q_pow_div (α + 1) β
      _ = (2:ℚ) ^ (k + 1) := by congr 1; push_cast; omega
  have hlower : (2:ℚ) ^ (k - 1) ≤ (a:ℚ) / (b:ℚ) := by
    have hnat : 2 ^ α * b ≤ a * 2 ^ (β + 1) := by
      calc 2 ^ α * b ≤ 2 ^ α * 2 ^ (β + 1) := mul_le_mul_left' hb2.le _
        _ ≤ a * 2 ^ (β + 1) := mul_le_mul_right' ha1 _
    have hq : ((2 ^ α : ℕ) : ℚ) / ((2 ^ (β + 1) : ℕ) : ℚ) ≤ (a:ℚ) / (b:ℚ) := by
      rw [div_le_div_iff₀ (by positivity) hbq]
      calc ((2 ^ α : ℕ) : ℚ) * (b:ℚ) = ((2 ^ α * b : ℕ) : ℚ) := by push_cast; ring
        _ ≤ ((a * 2 ^ (β + 1) : ℕ) : ℚ) := by exact_mod_cast hnat
        _ = (a:ℚ) * ((2 ^ (β + 1) : ℕ) : ℚ) := by push_cast; ring
    calc (2:ℚ) ^ (k - 1)
        = (2:ℚ) ^ ((α : ℤ) - ((β + 1 : ℕ) : ℤ)) := by congr 1; push_cast; omega
      _ = ((2 ^ α : ℕ) : ℚ) / ((2 ^ (β + 1) : ℕ) : ℚ) := (q_pow_div α (β + 1)).symm
      _ ≤ (a:ℚ) / (b:ℚ) := hq
  rw [ratLog2]
  simp only [← hα, ← hβ, ← hk]
  by_cases h0 : 0 ≤ k
  · rw [if_pos h0]
    by_cases htest : b * 2 ^ k.toNat ≤ a
    · rw [if_pos htest]
      exact ⟨(zpow_le_div_iff_of_nonneg a b k hb h0).mpr htest, hupper⟩
    · rw [if_neg htest]
      refine ⟨hlower, ?_⟩
      have h2 : (a:ℚ) / (b:ℚ) < (2:ℚ) ^ k :=
        not_le.mp ((zpow_le_div_iff_of_nonneg a b k hb h0).not.mpr htest)
      calc (a:ℚ) / (b:ℚ) < (2:ℚ) ^ k := h2
        _ = (2:ℚ) ^ (k - 1 + 1) := by congr 1; omega
  · rw [if_neg h0]
    by_cases htest : b ≤ a * 2 ^ (-k).toNat
    · rw [if_pos htest]
      exact ⟨(zpow_le_div_iff_of_neg a b k hb (by omega)).mpr htest, hupper⟩
    · rw [if_neg htest]
      refine ⟨hlower, ?_⟩
      have h2 : (a:ℚ) / (b:ℚ) < (2:ℚ) ^ k :=
        not_le.mp ((zpow_le_div_iff_of_neg a b k hb (by omega)).not.mpr htest)
      calc (a:ℚ) / (b:ℚ) < (2:ℚ) ^ k := h2
        _ = (2:ℚ) ^ (k - 1 + 1) := by congr 1; omega

lemma rheNat_err (a b : Nat) (hb : 1 ≤ b) :
    |(rheNat a b : ℚ) - (a:ℚ) / (b:ℚ)| ≤ 1 / 2 := by
  have hbq : (0:ℚ) < (b:ℚ) := by exact_mod_cast hb
  have hcast : (a:ℚ) = ((a / b : ℕ) : ℚ) * (b:ℚ) + ((a % b : ℕ) : ℚ) := by
    calc (a:ℚ) = ((b * (a / b) + a % b : ℕ) : ℚ) := by rw [Nat.div_add_mod a b]
      _ = _ := by push_cast; ring
  have hx : (a:ℚ) / (b:ℚ) = ((a / b : ℕ) : ℚ) + ((a % b : ℕ) : ℚ) / (b:ℚ) := by
    rw [hcast, add_div, mul_div_cancel_right₀ _ (ne_of_gt hbq)]
  set t : ℚ := ((a % b : ℕ) : ℚ) / (b:ℚ) with ht
  have ht0 : 0 ≤ t := by positivity
  have ht1 : t < 1 := by
    rw [ht, div_lt_one hbq]
    exact_mod_cast Nat.mod_lt a (by omega)
  simp only [rheNat]
  split_ifs with h1 h2 h3
  · have hlt : t < 1 / 2 := by
      rw [ht, div_lt_iff₀ hbq]
      have h1q : ((2 * (a % b) : ℕ) : ℚ) < (b:ℚ) := by exact_mod_cast h1
      push_cast at h1q
      linarith
    rw [hx, abs_le]
    constructor <;> linarith
  · have hgt : 1 / 2 ≤ t := by
      rw [ht, le_div_iff₀ hbq]
      have h2q : (b:ℚ) < ((2 * (a % b) : ℕ) : ℚ) := by exact_mod_cast h2
      push_cast at h2q
      linarith
    rw [hx, abs_le]
    constructor <;> push_cast <;> linarith
  · have heq : t = 1 / 2 := by
      have hb2 : 2 * (a % b) = b := by omega
      rw [ht, div_eq_iff (ne_of_gt hbq)]
      have h2q : ((2 * (a % b) : ℕ) : ℚ) = (b:ℚ) := by exact_mod_cast hb2
      push_cast at h2q
      linarith
    rw [hx, abs_le]
    constructor <;> linarith
  · have heq : t = 1 / 2 := by
      have hb2 : 2 * (a % b) = b := by omega
      rw [ht, div_eq_iff (ne_of_gt hbq)]
      have h2q : ((2 * (a % b) : ℕ) : ℚ) = (b:ℚ) := by exact_mod_cast hb2
      push_cast at h2q
      linarith
    rw [hx, abs_le]
    constructor <;> push_cast <;> linarith

lemma abs_scale (A q : ℚ) (e : ℤ) (h : |A - q / (2:ℚ) ^ e| ≤ 1 / 2) :
    |A * (2:ℚ) ^ e - q| ≤ (2:ℚ) ^ e / 2 := by
  have h2 : (0:ℚ) < (2:ℚ) ^ e := zpow_pos (by norm_num) e
  have heq : A * (2:ℚ) ^ e - q = (A - q / (2:ℚ) ^ e) * (2:ℚ) ^ e := by
    field_simp
  rw [heq, abs_mul, abs_of_pos h2]
  calc |A - q / (2:ℚ) ^ e| * (2:ℚ) ^ e ≤ (1 / 2) * (2:ℚ) ^ e :=
        mul_le_mul_of_nonneg_right h h2.le
    _ = (2:ℚ) ^ e / 2 := by ring

lemma flPair_err (a b : Nat) (ha : 1 ≤ a) (hb : 1 ≤ b) :
    |flVal (flPair a b) - (a:ℚ) / (b:ℚ)| ≤ ((a:ℚ) / (b:ℚ)) / 2 ^ 53 := by
  obtain ⟨hlog1, hlog2⟩ := ratLog2_correct a b ha hb
  have hbq : (0:ℚ) < (b:ℚ) := by exact_mod_cast hb
  have haq : (0:ℚ) < (a:ℚ) := by exact_mod_cast ha
  set E : ℤ := ratLog2 a b - 52 with hE
  have hfin : (2:ℚ) ^ E / 2 ≤ ((a:ℚ) / (b:ℚ)) / 2 ^ 53 := by
    have h1 : (2:ℚ) ^ E / 2 = (2:ℚ) ^ (ratLog2 a b) / 2 ^ 53 := by
      rw [hE, zpow_sub₀ (by norm_num : (2:ℚ) ≠ 0), div_div]
      norm_num
    rw [h1]
    gcongr
  simp only [flPair, ← hE]
  split_ifs with he
  · set t := E.toNat with htdef
    have hb' : 1 ≤ b * 2 ^ t := Nat.one_le_iff_ne_zero.mpr (by positivity)
    have herr := rheNat_err a (b * 2 ^ t) hb'
    have h2E : (2:ℚ) ^ E = ((2 ^ t : ℕ) : ℚ) := by
      rw [cast_two_pow, htdef, Int.toNat_of_nonneg he]
    have hfrac : (a:ℚ) / ((b * 2 ^ t : ℕ) : ℚ) = ((a:ℚ) / (b:ℚ)) / (2:ℚ) ^ E := by
      rw [h2E, div_div]
      congr 1
      push_cast
      ring
    rw [hfrac] at herr
    simp only [flVal]
    exact le_trans (abs_scale _ _ _ herr) hfin
  · set m := (-E).toNat with hmdef
    have herr := rheNat_err (a * 2 ^ m) b hb
    have h2E : (2:ℚ) ^ E = 1 / ((2 ^ m : ℕ) : ℚ) := by
      rw [cast_two_pow, one_div, ← zpow_neg]
      congr 1
      rw [hmdef]
      omega
    have hfrac : ((a * 2 ^ m : ℕ) : ℚ) / (b:ℚ) = ((a:ℚ) / (b:ℚ)) / (2:ℚ) ^ E := by
      rw [h2E]
      rw [div_div_eq_mul_div, div_one, div_mul_eq_mul_div]
      congr 1
      push_cast
      ring
    rw [hfrac] at herr
    simp only [flVal]
    exact le_trans (abs_scale _ _ _ herr) hfin

lemma flPair_mant_pos (a b : Nat) (ha : 1 ≤ a) (hb : 1 ≤ b) :
    1 ≤ (flPair a b).1 := by
  by_contra hcon
  have h0 : (flPair a b).1 = 0 := by omega
  have herr := flPair_err a b ha hb
  have hval : flVal (flPair a b) = 0 := by
    rw [flVal, h0]
    simp
  rw [hval, zero_sub, abs_neg] at herr
  have hq0 : (0:ℚ) < (a:ℚ) / (b:ℚ) := by
    have h1 : (0:ℚ) < (a:ℚ) := by exact_mod_cast (show 0 < a by omega)
    have h2 : (0:ℚ) < (b:ℚ) := by exact_mod_cast (show 0 < b by omega)
    exact div_pos h1 h2
  rw [abs_of_pos hq0] at herr
  linarith

lemma mulFl_err (p q : Nat × ℤ) (hp : 1 ≤ p.1) (hq : 1 ≤ q.1) :
    |flVal (mulFl p q) - flVal p * flVal q| ≤ (flVal p * flVal q) / 2 ^ 53 := by
  simp only [mulFl]
  split_ifs with he
  · set t := (p.2 + q.2).toNat with htdef
    have hN : 1 ≤ p.1 * q.1 * 2 ^ t := Nat.one_le_iff_ne_zero.mpr (by positivity)
    have herr := flPair_err (p.1 * q.1 * 2 ^ t) 1 hN le_rfl
    have hprod : ((p.1 * q.1 * 2 ^ t : ℕ) : ℚ) / ((1:ℕ) : ℚ) = flVal p * flVal q := by
      rw [Nat.cast_one, div_one, flVal, flVal]
      push_cast
      rw [show ((2:ℚ) ^ t = (2:ℚ) ^ ((t:ℕ) : ℤ)) from (zpow_natCast 2 t).symm, htdef,
        Int.toNat_of_nonneg he, zpow_add₀ (by norm_num : (2:ℚ) ≠ 0)]
      ring
    rw [hprod] at herr
    exact herr
  · set m := (-(p.2 + q.2)).toNat with hmdef
    have hN : 1 ≤ p.1 * q.1 := Nat.one_le_iff_ne_zero.mpr (by positivity)
    have hM : 1 ≤ 2 ^ m := Nat.one_le_two_pow
    have herr := flPair_err (p.1 * q.1) (2 ^ m) hN hM
    have hprod : ((p.1 * q.1 : ℕ) : ℚ) / ((2 ^ m : ℕ) : ℚ) = flVal p * flVal q := by
      rw [cast_two_pow, flVal, flVal]
      rw [div_eq_mul_inv, ← zpow_neg]
      push_cast
      rw [show (-(m:ℤ) = p.2 + q.2) from by rw [hmdef]; omega,
        zpow_add₀ (by norm_num : (2:ℚ) ≠ 0)]
      ring
    rw [hprod] at herr
    exact herr

lemma mulFl_mant_pos (p q : Nat × ℤ) (hp : 1 ≤ p.1) (hq : 1 ≤ q.1) :
    1 ≤ (mulFl p q).1 := by
  simp only [mulFl]
  split_ifs with he
  · exact flPair_mant_pos _ _ (Nat.one_le_iff_ne_zero.mpr (by positivity)) le_rfl
  · exact flPair_mant_pos _ _ (Nat.one_le_iff_ne_zero.mpr (by positivity))
      Nat.one_le_two_pow

lemma truncFloat_eq_floor (p : Nat × ℤ) : truncFloat p = ⌊flVal p⌋₊ := by
  rw [truncFloat, flVal]
  split_ifs with he
  · have hcast : (p.1:ℚ) * (2:ℚ) ^ p.2 = ((p.1 * 2 ^ p.2.toNat : ℕ) : ℚ) := by
      push_cast
      rw [show ((2:ℚ) ^ p.2.toNat = (2:ℚ) ^ ((p.2.toNat:ℕ) : ℤ)) from
        (zpow_natCast 2 p.2.toNat).symm, Int.toNat_of_nonneg he]
    rw [hcast, Nat.floor_natCast]
  · have hcast : (p.1:ℚ) * (2:ℚ) ^ p.2 = (p.1 : ℚ) / (((2 ^ (-p.2).toNat : ℕ)) : ℚ) := by
      rw [cast_two_pow, div_eq_mul_inv, ← zpow_neg]
      congr 1
      congr 1
      omega
    rw [hcast, Nat.floor_div_nat, Nat.floor_natCast]

set_option maxHeartbeats 1000000 in
lemma scaled_side_core (S L M : Nat) (hS : 1 ≤ S) (hSL : S ≤ L)
    (hM : 1 ≤ M) (hMb : M ≤ 2 ^ 32) :
    scaled_side S L M ≤ M ∧
    S * M / L ≤ scaled_side S L M + 1 ∧
    scaled_side S L M ≤ S * M / L + 1 ∧
    |(scaled_side S L M : ℚ) - ((S * M : ℕ) : ℚ) / (L:ℚ)| < 2 := by
  have hL : 1 ≤ L := le_trans hS hSL
  have hLq : (0:ℚ) < (L:ℚ) := by exact_mod_cast hL
  have hSq : (0:ℚ) < (S:ℚ) := by exact_mod_cast hS
  have hMq : (0:ℚ) < (M:ℚ) := by exact_mod_cast hM
  have hSLq : (S:ℚ) ≤ (L:ℚ) := by exact_mod_cast hSL
  have hMbq : (M:ℚ) ≤ 2 ^ 32 := by exact_mod_cast hMb
  set u : ℚ := 1 / 2 ^ 53 with hu
  set q0 : ℚ := (M:ℚ) / (L:ℚ) with hq0
  set x : ℚ := ((S * M : ℕ) : ℚ) / (L:ℚ) with hxdef
  set sv : ℚ := flVal (flPair S 1) with hsv
  set rv : ℚ := flVal (flPair M L) with hrv
  set pv : ℚ := flVal (mulFl (flPair S 1) (flPair M L)) with hpv
  have hsf_err := flPair_err S 1 hS le_rfl
  rw [Nat.cast_one, div_one, ← hsv] at hsf_err
  have hrr_err := flPair_err M L hM hL
  rw [← hq0, ← hrv] at hrr_err
  have hsf_pos : 1 ≤ (flPair S 1).1 := flPair_mant_pos S 1 hS le_rfl
  have hrr_pos : 1 ≤ (flPair M L).1 := flPair_mant_pos M L hM hL
  have hpp_err := mulFl_err (flPair S 1) (flPair M L) hsf_pos hrr_pos
  rw [← hsv, ← hrv, ← hpv] at hpp_err
  have hs : scaled_side S L M = ⌊pv⌋₊ := by
    rw [scaled_side, truncFloat_eq_floor, ← hpv]
  clear_value u q0 x sv rv pv
  have hq0pos : 0 < q0 := by rw [hq0]; exact div_pos hMq hLq
  have hxeq : (S:ℚ) * q0 = x := by
    rw [hq0, hxdef]
    push_cast
    ring
  have hxpos : 0 < x := by
    rw [← hxeq]
    positivity
  have hxpos0 : 0 ≤ x := le_of_lt hxpos
  have hupos : 0 < u := by rw [hu]; norm_num
  have hu1 : u < 1 / 4 := by rw [hu]; norm_num
  have h1u : (0:ℚ) ≤ 1 + u := by linarith only [hupos]
  have h1mu : (0:ℚ) ≤ 1 - u := by linarith only [hu1]
  have hSq0 : (0:ℚ) ≤ (S:ℚ) * q0 := mul_nonneg hSq.le hq0pos.le
  obtain ⟨hsv_lb0, hsv_ub0⟩ := abs_le.mp hsf_err
  obtain ⟨hrv_lb0, hrv_ub0⟩ := abs_le.mp hrr_err
  obtain ⟨hpv_lb0, hpv_ub0⟩ := abs_le.mp hpp_err
  have hSdiv : (S:ℚ) / 2 ^ 53 = (S:ℚ) * u := by rw [hu]; ring
  have hq0div : q0 / 2 ^ 53 = q0 * u := by rw [hu]; ring
  have hsvrvdiv : sv * rv / 2 ^ 53 = sv * rv * u := by rw [hu]; ring
  have hsv_ub : sv ≤ (S:ℚ) * (1 + u) := by linarith only [hsv_ub0, hSdiv]
  have hsv_lb : (S:ℚ) * (1 - u) ≤ sv := by linarith only [hsv_lb0, hSdiv]
  have hrv_ub : rv ≤ q0 * (1 + u) := by linarith only [hrv_ub0, hq0div]
  have hrv_lb : q0 * (1 - u) ≤ rv := by linarith only [hrv_lb0, hq0div]
  have hSu : (S:ℚ) * u ≤ (S:ℚ) * (1 / 4) :=
    mul_le_mul_of_nonneg_left hu1.le hSq.le
  have hq0u : q0 * u ≤ q0 * (1 / 4) :=
    mul_le_mul_of_nonneg_left hu1.le hq0pos.le
  have hsv_nonneg : 0 ≤ sv := by linarith only [hsv_lb, hSu, hSq]
  have hrv_nonneg : 0 ≤ rv := by linarith only [hrv_lb, hq0u, hq0pos]
  have hprod_ub : sv * rv ≤ (S:ℚ) * q0 * (1 + u) ^ 2 := by
    calc sv * rv ≤ ((S:ℚ) * (1 + u)) * (q0 * (1 + u)) :=
          mul_le_mul hsv_ub hrv_ub hrv_nonneg (mul_nonneg hSq.le h1u)
      _ = (S:ℚ) * q0 * (1 + u) ^ 2 := by ring
  have hprod_lb : (S:ℚ) * q0 * (1 - u) ^ 2 ≤ sv * rv := by
    calc (S:ℚ) * q0 * (1 - u) ^ 2 = ((S:ℚ) * (1 - u)) * (q0 * (1 - u)) := by ring
      _ ≤ sv * rv :=
          mul_le_mul hsv_lb hrv_lb (mul_nonneg hq0pos.le h1mu) hsv_nonneg
  have hpv_ub1 : pv ≤ (S:ℚ) * q0 * (1 + u) ^ 3 := by
    have h1 : pv ≤ sv * rv * (1 + u) := by linarith only [hpv_ub0, hsvrvdiv]
    calc pv ≤ sv * rv * (1 + u) := h1
      _ ≤ ((S:ℚ) * q0 * (1 + u) ^ 2) * (1 + u) :=
          mul_le_mul_of_nonneg_right hprod_ub h1u
      _ = (S:ℚ) * q0 * (1 + u) ^ 3 := by ring
  have hpv_lb1 : (S:ℚ) * q0 * (1 - u) ^ 3 ≤ pv := by
    have h1 : sv * rv * (1 - u) ≤ pv := by linarith only [hpv_lb0, hsvrvdiv]
    calc (S:ℚ) * q0 * (1 - u) ^ 3 = ((S:ℚ) * q0 * (1 - u) ^ 2) * (1 - u) := by ring
      _ ≤ (sv * rv) * (1 - u) :=
          mul_le_mul_of_nonneg_right hprod_lb h1mu
      _ ≤ pv := h1
  have hcube_ub : (1 + u) ^ 3 ≤ 1 + 4 * u := by rw [hu]; norm_num
  have hcube_lb : 1 - 4 * u ≤ (1 - u) ^ 3 := by rw [hu]; norm_num
  have hx_ub : pv ≤ x * (1 + 4 * u) := by
    calc pv ≤ (S:ℚ) * q0 * (1 + u) ^ 3 := hpv_ub1
      _ ≤ (S:ℚ) * q0 * (1 + 4 * u) :=
          mul_le_mul_of_nonneg_left hcube_ub hSq0
      _ = x * (1 + 4 * u) := by rw [hxeq]
  have hx_lb : x * (1 - 4 * u) ≤ pv := by
    calc x * (1 - 4 * u) = (S:ℚ) * q0 * (1 - 4 * u) := by rw [hxeq]
      _ ≤ (S:ℚ) * q0 * (1 - u) ^ 3 :=
          mul_le_mul_of_nonneg_left hcube_lb hSq0
      _ ≤ pv := hpv_lb1
  have hxM : x ≤ (M:ℚ) := by
    rw [← hxeq, hq0]
    calc (S:ℚ) * ((M:ℚ) / (L:ℚ)) ≤ (L:ℚ) * ((M:ℚ) / (L:ℚ)) :=
          mul_le_mul_of_nonneg_right hSLq (div_nonneg hMq.le hLq.le)
      _ = (M:ℚ) := by field_simp
  have h4uM : 4 * u * (M:ℚ) < 1 / 2 := by
    have h1 : (4 * u) * (M:ℚ) ≤ (4 * u) * (2:ℚ) ^ 32 :=
      mul_le_mul_of_nonneg_left hMbq (by linarith only [hupos])
    have h2 : (4 * u) * (2:ℚ) ^ 32 < 1 / 2 := by rw [hu]; norm_num
    linarith only [h1, h2]
  have h4ux : 4 * u * x < 1 / 2 := by
    have h1 : (4 * u) * x ≤ (4 * u) * (M:ℚ) :=
      mul_le_mul_of_nonneg_left hxM (by linarith only [hupos])
    linarith only [h1, h4uM]
  have hpv_ub2 : pv < x + 1 / 2 := by linarith only [hx_ub, h4ux]
  have hpv_lb2 : x - 1 / 2 < pv := by linarith only [hx_lb, h4ux]
  have hpv_nonneg : 0 ≤ pv := by
    have h1 : 0 ≤ x * (1 - 4 * u) := mul_nonneg hxpos0 (by linarith only [hu1])
    linarith only [h1, hx_lb]
  have hfloor_x : ⌊x⌋₊ = S * M / L := by
    rw [hxdef, Nat.floor_div_nat, Nat.floor_natCast]
  refine ⟨?_, ?_, ?_, ?_⟩
  · have : ⌊pv⌋₊ < M + 1 := by
      rw [Nat.floor_lt hpv_nonneg]
      push_cast
      linarith only [hpv_ub2, hxM]
    omega
  · have hle : x ≤ pv + 1 := by linarith only [hpv_lb2]
    have h2 := Nat.floor_le_floor hle
    rw [Nat.floor_add_one hpv_nonneg, hfloor_x] at h2
    omega
  · have h2 : ⌊pv⌋₊ < ⌊x⌋₊ + 2 := by
      rw [Nat.floor_lt hpv_nonneg]
      have h3 := Nat.lt_floor_add_one x
      push_cast
      linarith only [hpv_ub2, h3]
    rw [hfloor_x] at h2
    omega
  · rw [hs, abs_lt]
    have hfl_le : ((⌊pv⌋₊ : ℕ) : ℚ) ≤ pv := Nat.floor_le hpv_nonneg
    have hfl_gt : pv < ((⌊pv⌋₊ : ℕ) : ℚ) + 1 := Nat.lt_floor_add_one pv
    constructor <;> linarith only [hfl_le, hfl_gt, hpv_ub2, hpv_lb2]
set_option maxRecDepth 40000 in
/-- Double rounding is observable: for a 2124×531 raster with M = 2000 the
exact scaled value is 500 exactly, but `2000/2124` rounds down to a double
slightly below 500/531 and the product `531 * fl(2000/2124)` rounds to
499.99999999999994, so the program truncates to 499 — one below the exact
floor.  The model reproduces this bit-exactly. -/
lemma scaled_side_below_exact_floor :
    scaled_side 531 2124 2000 = 499 ∧ 531 * 2000 / 2124 = 500 := by
  decide

set_option maxRecDepth 40000 in
/-- The same effect at the boundary of collapse: for 98000×49 with
M = 2000 the exact scaled value is 1 exactly, but `49 * fl(2000/98000)`
rounds to 0.9999999999999999 and truncates to 0. -/
lemma scaled_side_collapse_at_boundary :
    scaled_side 49 98000 2000 = 0 ∧ 49 * 2000 / 98000 = 1 := by
  decide

/-- On an oversized raster `resize_image` sets the longer side to exactly
`max_size` and the shorter side to `scaled_side` of the original shorter
and longer sides. -/
lemma resize_image_min_max_eq (lanczos : Raster → Nat → Nat → List Nat)
    (image : Raster) (max_size : Nat)
    (hw1 : 1 ≤ image.width) (hh1 : 1 ≤ image.height)
    (hno : ¬(image.width ≤ max_size ∧ image.height ≤ max_size))
    (hM : 1 ≤ max_size) (hMb : max_size ≤ 2 ^ 32) :
    ((resize_image lanczos image max_size).width.max
        (resize_image lanczos image max_size).height = max_size) ∧
    ((resize_image lanczos image max_size).width.min
        (resize_image lanczos image max_size).height =
      scaled_side (image.width.min image.height)
        (image.width.max image.height) max_size) := by
  unfold resize_image
  rw [if_neg hno]
  by_cases hwh : image.width > image.height
  · rw [if_pos hwh]
    obtain ⟨hle, -, -, -⟩ :=
      scaled_side_core image.height image.width max_size hh1 hwh.le hM hMb
    have h1 : Nat.min image.width image.height = image.height :=
      Nat.min_eq_right hwh.le
    have h2 : Nat.max image.width image.height = image.width :=
      Nat.max_eq_left hwh.le
    constructor
    · show Nat.max max_size (scaled_side image.height image.width max_size) =
        max_size
      exact Nat.max_eq_left hle
    · show Nat.min max_size (scaled_side image.height image.width max_size) =
        scaled_side (image.width.min image.height)
          (image.width.max image.height) max_size
      rw [h1, h2]
      exact Nat.min_eq_right hle
  · rw [if_neg hwh]
    push_neg at hwh
    obtain ⟨hle, -, -, -⟩ :=
      scaled_side_core image.width image.height max_size hw1 hwh hM hMb
    have h1 : Nat.min image.width image.height = image.width :=
      Nat.min_eq_left hwh
    have h2 : Nat.max image.width image.height = image.height :=
      Nat.max_eq_right hwh
    constructor
    · show Nat.max (scaled_side image.width image.height max_size) max_size =
        max_size
      exact Nat.max_eq_right hle
    · show Nat.min (scaled_side image.width image.height max_size) max_size =
        scaled_side (image.width.min image.height)
          (image.width.max image.height) max_size
      rw [h1, h2]
      exact Nat.min_eq_left hle

/-! ## Claim theorems -/

set_option maxRecDepth 40000 in
/-- C1 (counterexample): the claim says the shorter side is scaled "rounded
to the nearest integer".  For a 3000×1003 raster with M = 2000 the exact
scaled height is 668.666…, whose nearest integer is 669, but the program
truncates the double-precision product and produces 668. -/
theorem c1_counterexample :
    2000 < (3000 : Nat) ∧
    (resize_image (fun _ _ _ => []) ⟨3000, 1003, []⟩ 2000).height ≠
      roundNearest (1003 * 2000) 3000 := by
  decide

/-- C1 (amended): for every raster with positive sides whose width or
height exceeds the bounding dimension `max_size` (with `max_size ≤ 2^32`),
`resize_image` maps the longer side to exactly `max_size` — so
`max(newWidth, newHeight) = max_size` — and the shorter side to the exact
ratio-scaled value truncated toward zero, up to one pixel of
double-rounding slack: the result is within 1 of `⌊min·M / max⌋` (and is
truncation, not rounding to the nearest integer). -/
theorem c1_resize_longer_exact_shorter_truncated
    (lanczos : Raster → Nat → Nat → List Nat) (image : Raster)
    (max_size : Nat) (hw1 : 1 ≤ image.width) (hh1 : 1 ≤ image.height)
    (hno : ¬(image.width ≤ max_size ∧ image.height ≤ max_size))
    (hM : 1 ≤ max_size) (hMb : max_size ≤ 2 ^ 32) :
    ((resize_image lanczos image max_size).width.max
        (resize_image lanczos image max_size).height = max_size) ∧
    ((resize_image lanczos image max_size).width.min
        (resize_image lanczos image max_size).height ≤
      image.width.min image.height * max_size /
        (image.width.max image.height) + 1) ∧
    (image.width.min image.height * max_size /
        (image.width.max image.height) ≤
      (resize_image lanczos image max_size).width.min
        (resize_image lanczos image max_size).height + 1) := by
  obtain ⟨hmax, hmin⟩ :=
    resize_image_min_max_eq lanczos image max_size hw1 hh1 hno hM hMb
  obtain ⟨-, hlow, hup, -⟩ :=
    scaled_side_core (image.width.min image.height)
      (image.width.max image.height) max_size
      (le_min hw1 hh1) min_le_max hM hMb
  rw [hmin]
  exact ⟨hmax, hup, hlow⟩

set_option maxRecDepth 40000 in
/-- C1 witness: the amended statement evaluated on a 3000×1003 raster. -/
theorem c1_witness :
    ((1 : Nat) ≤ 3000 ∧ (1 : Nat) ≤ 1003 ∧
     ¬((3000 : Nat) ≤ 2000 ∧ (1003 : Nat) ≤ 2000) ∧
     (1 : Nat) ≤ 2000 ∧ (2000 : Nat) ≤ 2 ^ 32) ∧
    (((resize_image (fun _ _ _ => []) ⟨3000, 1003, []⟩ 2000).width.max
        (resize_image (fun _ _ _ => []) ⟨3000, 1003, []⟩ 2000).height
          = 2000) ∧
     ((resize_image (fun _ _ _ => []) ⟨3000, 1003, []⟩ 2000).width.min
        (resize_image (fun _ _ _ => []) ⟨3000, 1003, []⟩ 2000).height ≤
       Nat.min 3000 1003 * 2000 / Nat.max 3000 1003 + 1) ∧
     (Nat.min 3000 1003 * 2000 / Nat.max 3000 1003 ≤
       (resize_image (fun _ _ _ => []) ⟨3000, 1003, []⟩ 2000).width.min
         (resize_image (fun _ _ _ => []) ⟨3000, 1003, []⟩ 2000).height
           + 1)) :=
  ⟨⟨by decide, by decide, by decide, by decide, by decide⟩,
   c1_resize_longer_exact_shorter_truncated (fun _ _ _ => [])
     ⟨3000, 1003, []⟩ 2000 (by decide) (by decide) (by decide) (by decide)
     (by decide)⟩

/-- C4: a raster already within the bounding dimension is returned
unchanged, and applying `resize_image` again yields the same result. -/
theorem c4_resize_noop_idempotent
    (lanczos : Raster → Nat → Nat → List Nat) (image : Raster)
    (max_size : Nat)
    (hw : image.width ≤ max_size) (hh : image.height ≤ max_size) :
    resize_image lanczos image max_size = image ∧
    resize_image lanczos (resize_image lanczos image max_size) max_size =
      resize_image lanczos image max_size := by
  have h1 : resize_image lanczos image max_size = image := by
    unfold resize_image
    rw [if_pos ⟨hw, hh⟩]
  exact ⟨h1, by rw [h1]; exact h1⟩

/-- C4 witness: a 500×500 raster with M = 2000 passes through unchanged. -/
theorem c4_witness :
    ((500 : Nat) ≤ 2000 ∧ (500 : Nat) ≤ 2000) ∧
    (resize_image (fun _ _ _ => []) ⟨500, 500, []⟩ 2000 = ⟨500, 500, []⟩ ∧
     resize_image (fun _ _ _ => [])
        (resize_image (fun _ _ _ => []) ⟨500, 500, []⟩ 2000) 2000 =
       resize_image (fun _ _ _ => []) ⟨500, 500, []⟩ 2000) :=
  ⟨⟨by decide, by decide⟩,
   c4_resize_noop_idempotent (fun _ _ _ => []) ⟨500, 500, []⟩ 2000
     (by decide) (by decide)⟩

set_option maxRecDepth 40000 in
/-- C7 (counterexample): the claim bounds the aspect-ratio drift by 1.
For a 3000×7 raster with M = 2000 the output is 2000×4, whose ratio 500
differs from 3000/7 ≈ 428.57 by ≈ 71.4 ≥ 1. -/
theorem c7_counterexample :
    2000 < (3000 : Nat) ∧
    (resize_image (fun _ _ _ => []) ⟨3000, 7, []⟩ 2000).width = 2000 ∧
    (resize_image (fun _ _ _ => []) ⟨3000, 7, []⟩ 2000).height = 4 ∧
    ¬(|(2000 : ℚ) / 4 - 3000 / 7| < 1) := by
  refine ⟨by decide, by decide, by decide, ?_⟩
  rw [abs_sub_lt_iff]
  intro h
  have := h.1
  norm_num at this

/-- C7 (amended): the rounding error lives in the shorter side, not in the
ratio: the new shorter side is within 2 of the exact ratio-scaled value
(its floor, ±1 for double rounding), while the aspect-ratio difference
itself can exceed any fixed bound. -/
theorem c7_shorter_side_within_two_of_exact
    (lanczos : Raster → Nat → Nat → List Nat) (image : Raster)
    (max_size : Nat) (hw1 : 1 ≤ image.width) (hh1 : 1 ≤ image.height)
    (hno : ¬(image.width ≤ max_size ∧ image.height ≤ max_size))
    (hM : 1 ≤ max_size) (hMb : max_size ≤ 2 ^ 32) :
    |((resize_image lanczos image max_size).width.min
        (resize_image lanczos image max_size).height : ℚ) -
      ((image.width.min image.height * max_size : ℕ) : ℚ) /
        ((image.width.max image.height : ℕ) : ℚ)| < 2 := by
  obtain ⟨-, hmin⟩ :=
    resize_image_min_max_eq lanczos image max_size hw1 hh1 hno hM hMb
  obtain ⟨-, -, -, habs⟩ :=
    scaled_side_core (image.width.min image.height)
      (image.width.max image.height) max_size
      (le_min hw1 hh1) min_le_max hM hMb
  rw [hmin]
  exact habs

set_option maxRecDepth 40000 in
/-- C7 witness: the amended bound evaluated on a 3000×7 raster, where the
shorter side 4 is within 2 of the exact value 14000/3000 ≈ 4.67. -/
theorem c7_witness :
    ((1 : Nat) ≤ 3000 ∧ (1 : Nat) ≤ 7 ∧
     ¬((3000 : Nat) ≤ 2000 ∧ (7 : Nat) ≤ 2000) ∧
     (1 : Nat) ≤ 2000 ∧ (2000 : Nat) ≤ 2 ^ 32) ∧
    |((resize_image (fun _ _ _ => []) ⟨3000, 7, []⟩ 2000).width.min
        (resize_image (fun _ _ _ => []) ⟨3000, 7, []⟩ 2000).height : ℚ) -
      ((Nat.min 3000 7 * 2000 : ℕ) : ℚ) / ((Nat.max 3000 7 : ℕ) : ℚ)| < 2 :=
  ⟨⟨by decide, by decide, by decide, by decide, by decide⟩,
   c7_shorter_side_within_two_of_exact (fun _ _ _ => []) ⟨3000, 7, []⟩ 2000
     (by decide) (by decide) (by decide) (by decide) (by decide)⟩

set_option maxRecDepth 40000 in
/-- C10 (counterexample): a 3000×1 raster has width ≥ 1 and height ≥ 1,
yet `resize_image` with M = 2000 collapses the height to 0
(`int(1 * (2000/3000)) = 0`). -/
theorem c10_counterexample :
    (1 : Nat) ≤ 3000 ∧ (1 : Nat) ≤ 1 ∧
    (resize_image (fun _ _ _ => []) ⟨3000, 1, []⟩ 2000).height = 0 := by
  decide

/-- C10 (amended): on an oversized raster with positive sides and
`1 ≤ max_size ≤ 2^32` the longer output side is always ≥ 1, but the
truncated shorter output side can collapse to 0; it is guaranteed ≥ 1
whenever `min(w,h) * max_size ≥ 2 * max(w,h)` (one factor of 2 absorbs
the truncation-plus-double-rounding slack). -/
theorem c10_shorter_side_positivity
    (lanczos : Raster → Nat → Nat → List Nat) (image : Raster)
    (max_size : Nat) (hw1 : 1 ≤ image.width) (hh1 : 1 ≤ image.height)
    (hno : ¬(image.width ≤ max_size ∧ image.height ≤ max_size))
    (hM : 1 ≤ max_size) (hMb : max_size ≤ 2 ^ 32) :
    1 ≤ (resize_image lanczos image max_size).width.max
        (resize_image lanczos image max_size).height ∧
    (2 * (image.width.max image.height) ≤
        image.width.min image.height * max_size →
      1 ≤ (resize_image lanczos image max_size).width.min
          (resize_image lanczos image max_size).height) := by
  obtain ⟨hmax, hmin⟩ :=
    resize_image_min_max_eq lanczos image max_size hw1 hh1 hno hM hMb
  obtain ⟨-, hlow, -, -⟩ :=
    scaled_side_core (image.width.min image.height)
      (image.width.max image.height) max_size
      (le_min hw1 hh1) min_le_max hM hMb
  refine ⟨by rw [hmax]; exact hM, fun h2 => ?_⟩
  rw [hmin]
  have hLpos : 0 < image.width.max image.height :=
    lt_of_lt_of_le hw1 (Nat.le_max_left _ _)
  have hdiv : 2 ≤ image.width.min image.height * max_size /
      (image.width.max image.height) :=
    (Nat.le_div_iff_mul_le hLpos).mpr h2
  omega

set_option maxRecDepth 40000 in
/-- C10 witness: the amended statement evaluated on a 3000×100 raster,
where `2 · 3000 ≤ 100 · 2000` and the shorter side resizes to 66 ≥ 1. -/
theorem c10_witness :
    ((1 : Nat) ≤ 3000 ∧ (1 : Nat) ≤ 100 ∧
     ¬((3000 : Nat) ≤ 2000 ∧ (100 : Nat) ≤ 2000) ∧
     (1 : Nat) ≤ 2000 ∧ (2000 : Nat) ≤ 2 ^ 32) ∧
    (1 ≤ (resize_image (fun _ _ _ => []) ⟨3000, 100, []⟩ 2000).width.max
        (resize_image (fun _ _ _ => []) ⟨3000, 100, []⟩ 2000).height ∧
     (2 * Nat.max 3000 100 ≤ Nat.min 3000 100 * 2000 →
       1 ≤ (resize_image (fun _ _ _ => []) ⟨3000, 100, []⟩ 2000).width.min
           (resize_image (fun _ _ _ => []) ⟨3000, 100, []⟩ 2000).height)) :=
  ⟨⟨by decide, by decide, by decide, by decide, by decide⟩,
   c10_shorter_side_positivity (fun _ _ _ => []) ⟨3000, 100, []⟩ 2000
     (by decide) (by decide) (by decide) (by decide) (by decide)⟩

/-- C2 (counterexample): when the removal model raises, `process_image`
shows `st.error(f"Image processing error: {str(e)}")` — the exception text
reaches the end user (so the message is not generic), and nothing at all
is written to the operator console for this path. -/
theorem c2_counterexample :
    "Image processing error: boom" ∈
      userErrors (fix_image
        ⟨fun _ _ _ => [], fun _ => .ok ⟨500, 500, []⟩,
         fun _ => .raise "boom"⟩ [0] "0.10") ∧
    userErrors (fix_image
        ⟨fun _ _ _ => [], fun _ => .ok ⟨500, 500, []⟩,
         fun _ => .raise "boom"⟩ [0] "0.10") ≠
      userErrors (fix_image
        ⟨fun _ _ _ => [], fun _ => .ok ⟨500, 500, []⟩,
         fun _ => .raise "zap"⟩ [0] "0.10") ∧
    consoleLogs (fix_image
        ⟨fun _ _ _ => [], fun _ => .ok ⟨500, 500, []⟩,
         fun _ => .raise "boom"⟩ [0] "0.10") = [] := by
  decide

/-- C2 (amended): a removal-model failure is caught inside `process_image`
and reported to the user as `"Image processing error: "` followed by the
exception text — the diagnostic detail is shown to the end user and no
operator-only log is written on this path.  Only an exception escaping
`process_image` within `fix_image` yields a generic user message, with the
traceback going only to the operator console. -/
theorem c2_model_failure_text_shown_to_user
    (env : Env) (image_bytes : List Nat) (elapsed : String)
    (image : Raster) (e tb : String)
    (hdec : env.decodeFn image_bytes = .ok image)
    (hrem : env.removeFn (resize_image env.lanczos image MAX_IMAGE_SIZE) =
      .raise e) :
    userErrors (fix_image env image_bytes elapsed) =
      ["Image processing error: " ++ e] ∧
    consoleLogs (fix_image env image_bytes elapsed) = [] ∧
    userErrors (fix_image_handler tb) =
      ["An unexpected error occurred.", "⚠️ Processing failed."] ∧
    consoleLogs (fix_image_handler tb) = [tb] := by
  have hp : process_image env image_bytes =
      (none, [.stageDecode, .stageResize, .stageRemove,
              .errorMsg ("Image processing error: " ++ e)]) := by
    unfold process_image
    rw [hdec]
    simp only []
    rw [hrem]
  unfold fix_image
  rw [hp]
  refine ⟨?_, ?_, ?_, ?_⟩ <;>
    simp [userErrors, consoleLogs, fix_image_handler]

/-- C2 witness: the amended statement evaluated on a concrete run where
the model raises "boom". -/
theorem c2_witness :
    userErrors (fix_image
        ⟨fun _ _ _ => [], fun _ => .ok ⟨500, 500, []⟩,
         fun _ => .raise "boom"⟩ [0] "0.10") =
      ["Image processing error: " ++ "boom"] ∧
    consoleLogs (fix_image
        ⟨fun _ _ _ => [], fun _ => .ok ⟨500, 500, []⟩,
         fun _ => .raise "boom"⟩ [0] "0.10") = [] ∧
    userErrors (fix_image_handler "Traceback (most recent call last): ...") =
      ["An unexpected error occurred.", "⚠️ Processing failed."] ∧
    consoleLogs (fix_image_handler "Traceback (most recent call last): ...") =
      ["Traceback (most recent call last): ..."] :=
  c2_model_failure_text_shown_to_user
    ⟨fun _ _ _ => [], fun _ => .ok ⟨500, 500, []⟩, fun _ => .raise "boom"⟩
    [0] "0.10" ⟨500, 500, []⟩ "boom"
    "Traceback (most recent call last): ..." rfl rfl

/-- C3: an upload strictly larger than `MAX_FILE_SIZE` bytes produces only
the validation error message; the trace contains no decode, resize or
remove stage marker — the pipeline never starts. -/
theorem c3_oversized_upload_rejected_before_pipeline
    (env : Env) (image_bytes : List Nat) (elapsed : String)
    (h : image_bytes.length > MAX_FILE_SIZE) :
    main_dispatch env image_bytes elapsed =
      [.errorMsg "File too large. Please upload an image smaller than 10MB."] ∧
    stageEvents (main_dispatch env image_bytes elapsed) = [] := by
  have hmd : main_dispatch env image_bytes elapsed =
      [.errorMsg "File too large. Please upload an image smaller than 10MB."] := by
    unfold main_dispatch
    rw [if_pos h]
  exact ⟨hmd, by rw [hmd]; rfl⟩

/-- C3 witness: a buffer of `MAX_FILE_SIZE + 1` zero bytes is rejected. -/
theorem c3_witness :
    (List.replicate (MAX_FILE_SIZE + 1) 0).length > MAX_FILE_SIZE ∧
    (main_dispatch ⟨fun _ _ _ => [], fun _ => .ok ⟨1, 1, []⟩, fun r => .ok r⟩
        (List.replicate (MAX_FILE_SIZE + 1) 0) "0.00" =
      [.errorMsg "File too large. Please upload an image smaller than 10MB."] ∧
     stageEvents (main_dispatch
        ⟨fun _ _ _ => [], fun _ => .ok ⟨1, 1, []⟩, fun r => .ok r⟩
        (List.replicate (MAX_FILE_SIZE + 1) 0) "0.00") = []) :=
  ⟨by simp, c3_oversized_upload_rejected_before_pipeline
    ⟨fun _ _ _ => [], fun _ => .ok ⟨1, 1, []⟩, fun r => .ok r⟩
    (List.replicate (MAX_FILE_SIZE + 1) 0) "0.00" (by simp)⟩

/-- C5: when decoding raises, the failure is caught and reported as a
user-visible error message; no image is displayed and no download button
is offered — no partial output. -/
theorem c5_decode_failure_reported_no_partial_output
    (env : Env) (image_bytes : List Nat) (elapsed : String) (e : String)
    (hdec : env.decodeFn image_bytes = .raise e) :
    userErrors (fix_image env image_bytes elapsed) =
      ["Image processing error: " ++ e] ∧
    shownImages (fix_image env image_bytes elapsed) = [] ∧
    downloadButtons (fix_image env image_bytes elapsed) = [] := by
  have hp : process_image env image_bytes =
      (none, [.stageDecode, .errorMsg ("Image processing error: " ++ e)]) := by
    unfold process_image
    rw [hdec]
  unfold fix_image
  rw [hp]
  refine ⟨?_, ?_, ?_⟩ <;>
    simp [userErrors, shownImages, downloadButtons]

/-- C5 witness: a malformed buffer whose decode raises PIL's
"cannot identify image file" is reported without partial output. -/
theorem c5_witness :
    userErrors (fix_image
        ⟨fun _ _ _ => [], fun _ => .raise "cannot identify image file",
         fun r => .ok r⟩ [255, 0, 255] "0.01") =
      ["Image processing error: " ++ "cannot identify image file"] ∧
    shownImages (fix_image
        ⟨fun _ _ _ => [], fun _ => .raise "cannot identify image file",
         fun r => .ok r⟩ [255, 0, 255] "0.01") = [] ∧
    downloadButtons (fix_image
        ⟨fun _ _ _ => [], fun _ => .raise "cannot identify image file",
         fun r => .ok r⟩ [255, 0, 255] "0.01") = [] :=
  c5_decode_failure_reported_no_partial_output
    ⟨fun _ _ _ => [], fun _ => .raise "cannot identify image file",
     fun r => .ok r⟩ [255, 0, 255] "0.01" "cannot identify image file" rfl

/-- C6: on a successful run the user sees exactly the original image at
its pre-resize dimensions and the processed image, a PNG download button,
and a completion status carrying the elapsed wall-clock time. -/
theorem c6_success_displays_original_dims_and_result
    (env : Env) (image_bytes : List Nat) (elapsed : String)
    (image result : Raster)
    (hdec : env.decodeFn image_bytes = .ok image)
    (hrem : env.removeFn (resize_image env.lanczos image MAX_IMAGE_SIZE) =
      .ok result) :
    shownImages (fix_image env image_bytes elapsed) =
      [("Original Image", image.width, image.height),
       ("Background Removed", result.width, result.height)] ∧
    downloadButtons (fix_image env image_bytes elapsed) =
      [("removed_background.png", "image/png")] ∧
    Event.statusText ("✅ Completed in " ++ elapsed ++ " seconds") ∈
      fix_image env image_bytes elapsed := by
  have hp : process_image env image_bytes =
      (some (image, result),
       [.stageDecode, .stageResize, .stageRemove]) := by
    unfold process_image
    rw [hdec]
    simp only []
    rw [hrem]
  unfold fix_image
  rw [hp]
  refine ⟨?_, ?_, ?_⟩ <;>
    simp [shownImages, downloadButtons]

set_option maxRecDepth 40000 in
/-- C6 witness: a 3000×1000 upload is resized to 2000×666 for the model,
yet the original is displayed at 3000×1000 (pre-resize). -/
theorem c6_witness :
    shownImages (fix_image
        ⟨fun _ _ _ => [], fun _ => .ok ⟨3000, 1000, []⟩, fun r => .ok r⟩
        [0] "1.23") =
      [("Original Image", 3000, 1000), ("Background Removed", 2000, 666)] ∧
    downloadButtons (fix_image
        ⟨fun _ _ _ => [], fun _ => .ok ⟨3000, 1000, []⟩, fun r => .ok r⟩
        [0] "1.23") =
      [("removed_background.png", "image/png")] ∧
    Event.statusText ("✅ Completed in " ++ "1.23" ++ " seconds") ∈
      fix_image
        ⟨fun _ _ _ => [], fun _ => .ok ⟨3000, 1000, []⟩, fun r => .ok r⟩
        [0] "1.23" :=
  c6_success_displays_original_dims_and_result
    ⟨fun _ _ _ => [], fun _ => .ok ⟨3000, 1000, []⟩, fun r => .ok r⟩
    [0] "1.23" ⟨3000, 1000, []⟩ ⟨2000, 666, []⟩ rfl (by decide)

/-- C9: within a single run the progress-bar values form a monotonically
non-decreasing sequence bounded by 100, whatever the decode and removal
outcomes are. -/
theorem c9_progress_monotone_and_bounded
    (env : Env) (image_bytes : List Nat) (elapsed : String) :
    List.Chain' (· ≤ ·) (progressValues (fix_image env image_bytes elapsed)) ∧
    ∀ n ∈ progressValues (fix_image env image_bytes elapsed), n ≤ 100 := by
  cases hd : env.decodeFn image_bytes with
  | raise e =>
      have hp : process_image env image_bytes =
          (none, [.stageDecode,
                  .errorMsg ("Image processing error: " ++ e)]) := by
        unfold process_image
        rw [hd]
      unfold fix_image
      rw [hp]
      constructor
      · simp [progressValues]
      · intro n hn
        simp [progressValues] at hn
        omega
  | ok image =>
      cases hr : env.removeFn (resize_image env.lanczos image MAX_IMAGE_SIZE)
        with
      | raise e =>
          have hp : process_image env image_bytes =
              (none, [.stageDecode, .stageResize, .stageRemove,
                      .errorMsg ("Image processing error: " ++ e)]) := by
            unfold process_image
            rw [hd]
            simp only []
            rw [hr]
          unfold fix_image
          rw [hp]
          constructor
          · simp [progressValues]
          · intro n hn
            simp [progressValues] at hn
            omega
      | ok result =>
          have hp : process_image env image_bytes =
              (some (image, result),
               [.stageDecode, .stageResize, .stageRemove]) := by
            unfold process_image
            rw [hd]
            simp only []
            rw [hr]
          unfold fix_image
          rw [hp]
          constructor
          · simp [progressValues]
          · intro n hn
            simp [progressValues] at hn
            omega

/-- C8: the `@st.cache_data` memoization is indistinguishable from
recomputation and idempotent: on a well-formed cache, a call returns
exactly `process_image` of the input, preserves well-formedness, and a
second call with the same bytes returns the identical result. -/
theorem c8_cache_deterministic_and_transparent
    (env : Env) (c : Cache) (k : List Nat) (hwf : CacheWF env c) :
    (cached_process_image env c k).1 = process_image env k ∧
    CacheWF env (cached_process_image env c k).2 ∧
    (cached_process_image env (cached_process_image env c k).2 k).1 =
      (cached_process_image env c k).1 := by
  cases hl : cacheLookup k c with
  | some v =>
      have hv : v = process_image env k := cacheLookup_wf hwf hl
      have h1 : cached_process_image env c k = (v, c) := by
        unfold cached_process_image
        rw [hl]
      rw [h1]
      refine ⟨hv, hwf, ?_⟩
      show (cached_process_image env c k).1 = (v, c).1
      rw [h1]
  | none =>
      have h1 : cached_process_image env c k =
          (process_image env k, (k, process_image env k) :: c) := by
        unfold cached_process_image
        rw [hl]
      have h2 : cacheLookup k ((k, process_image env k) :: c) =
          some (process_image env k) := by
        unfold cacheLookup
        rw [if_pos rfl]
      rw [h1]
      refine ⟨rfl, ?_, ?_⟩
      · intro p hp
        rcases List.mem_cons.mp hp with h | h
        · rw [h]
        · exact hwf p h
      · show (cached_process_image env
            ((k, process_image env k) :: c) k).1 =
          (process_image env k, (k, process_image env k) :: c).1
        unfold cached_process_image
        rw [h2]

/-- C8 witness: starting from the empty cache, the first and second calls
on the same bytes agree with `process_image` and with each other. -/
theorem c8_witness :
    (cached_process_image
        ⟨fun _ _ _ => [], fun _ => .ok ⟨2, 2, []⟩, fun r => .ok r⟩
        [] [7]).1 =
      process_image
        ⟨fun _ _ _ => [], fun _ => .ok ⟨2, 2, []⟩, fun r => .ok r⟩ [7] ∧
    CacheWF ⟨fun _ _ _ => [], fun _ => .ok ⟨2, 2, []⟩, fun r => .ok r⟩
      (cached_process_image
        ⟨fun _ _ _ => [], fun _ => .ok ⟨2, 2, []⟩, fun r => .ok r⟩
        [] [7]).2 ∧
    (cached_process_image
        ⟨fun _ _ _ => [], fun _ => .ok ⟨2, 2, []⟩, fun r => .ok r⟩
        (cached_process_image
          ⟨fun _ _ _ => [], fun _ => .ok ⟨2, 2, []⟩, fun r => .ok r⟩
          [] [7]).2 [7]).1 =
      (cached_process_image
        ⟨fun _ _ _ => [], fun _ => .ok ⟨2, 2, []⟩, fun r => .ok r⟩
        [] [7]).1 :=
  c8_cache_deterministic_and_transparent
    ⟨fun _ _ _ => [], fun _ => .ok ⟨2, 2, []⟩, fun r => .ok r⟩ [] [7]
    (fun p hp => absurd hp (List.not_mem_nil p))

end BgRemover
